import Mathlib

/-!
Verification of the CVD monitor system's analytics core
(`src/data_processor/cvd_analyzer.py`) against its natural-language
specification.

The shallow embedding below translates the Python source into Lean.

* Machine floats are idealised as exact rationals; the one float
  phenomenon the source actually relies on — `NaN` produced by the sample
  standard deviation of fewer than two points, which compares false
  against every number — is modelled explicitly by the type
  `F := Option ℚ`, `none` standing for `NaN`.
* The real-valued square root inside the standard deviation cannot be a
  computable rational function, so every definition that needs it is
  parametrised by a function `sq : ℚ → ℚ`.  All structural theorems hold
  for every `sq`; concrete evaluations instantiate `sq` with `rat_sqrt`
  below on inputs chosen so that every square root actually taken is a
  square root of a perfect rational square, where `rat_sqrt` is exact.
* `pandas.sort_values` is modelled by the stable `List.insertionSort`;
  `pandas.Series.std`/`.mean` skip `NaN` entries and use the sample
  (ddof = 1) variance; `numpy.polyfit(x, y, 1)[0]` is the ordinary
  least-squares slope against positions `0..n-1`.
-/

/-- Floating-point value: `none` is `NaN`. -/
abbrev F : Type := Option ℚ

/-- Float addition (`NaN` propagates). -/
def fadd : F → F → F
  | some a, some b => some (a + b)
  | _, _ => none

/-- Float subtraction (`NaN` propagates). -/
def fsub : F → F → F
  | some a, some b => some (a - b)
  | _, _ => none

/-- Float multiplication (`NaN` propagates). -/
def fmul : F → F → F
  | some a, some b => some (a * b)
  | _, _ => none

/-- Float division (`NaN` propagates).  A zero denominator is mapped to
`NaN`; on every path of the embedded program the denominator is either
`NaN` or provably nonzero, so the IEEE infinities never arise. -/
def fdiv : F → F → F
  | some a, some b => if b = 0 then none else some (a / b)
  | _, _ => none

/-- Float absolute value (`NaN` propagates). -/
def fabs : F → F := Option.map (fun x => |x|)

/-- Float `min` (both arguments are non-`NaN` wherever the source takes it). -/
def fmin : F → F → F
  | some a, some b => some (min a b)
  | _, _ => none

/-- IEEE `<`: any comparison against `NaN` is false. -/
def fltB : F → F → Bool
  | some a, some b => decide (a < b)
  | _, _ => false

/-- IEEE `≤`: any comparison against `NaN` is false. -/
def fleB : F → F → Bool
  | some a, some b => decide (a ≤ b)
  | _, _ => false

/-- IEEE `>`. -/
def fgtB (a b : F) : Bool := fltB b a

/-- IEEE `≥`. -/
def fgeB (a b : F) : Bool := fleB b a

/-- Sum of a list of rationals. -/
def qsum (xs : List ℚ) : ℚ := xs.foldr (· + ·) 0

/-- Arithmetic mean of a list of rationals (0 on the empty list; only
used on nonempty lists). -/
def qmean (xs : List ℚ) : ℚ := qsum xs / (xs.length : ℚ)

/-- Sample variance (`ddof = 1`), only used on lists of length ≥ 2. -/
def svar (xs : List ℚ) : ℚ :=
  qsum (xs.map (fun x => (x - qmean xs) ^ 2)) / ((xs.length : ℚ) - 1)

/-- The non-`NaN` entries of a float series (`pandas` skips `NaN`). -/
def fvalid (xs : List F) : List ℚ := xs.filterMap id

/-- `pandas.Series.std()`: sample standard deviation over the non-`NaN`
entries; `NaN` when fewer than two remain.  `sq` is the real square
root. -/
def fstd (sq : ℚ → ℚ) (xs : List F) : F :=
  if (fvalid xs).length < 2 then none else some (sq (svar (fvalid xs)))

/-- `CVDScoreCalculator.calculate_z_score`: guard
`len(cvd_series) == 0 or cvd_series.std() == 0` returns an all-zero
series, otherwise `(cvd_series - mean) / std` elementwise.  The input
series carries no `NaN` (raw `cvd` column), the output may (length-one
input). -/
def calculate_z_score (sq : ℚ → ℚ) (xs : List ℚ) : List F :=
  if xs.length = 0 ∨ fstd sq (xs.map some) = some 0 then
    List.replicate xs.length (some 0)
  else
    xs.map (fun x => fdiv (some (x - qmean xs)) (fstd sq (xs.map some)))

/-- `DivergenceDetector.calculate_trend`: ordinary least-squares slope of
the series against positions `0..n-1` (`numpy.polyfit(x, y, 1)[0]`),
`0` when the series has fewer than two points.  In closed form the OLS
slope is `(n·Σxy − Σx·Σy) / (n·Σx² − (Σx)²)`; for `n ≥ 2` the
denominator `n²(n²−1)/12` is nonzero.  `NaN` inputs propagate to a
`NaN` slope. -/
def calculate_trend (ys : List F) : F :=
  if ys.length < 2 then some 0
  else
    let n : ℚ := (ys.length : ℚ)
    let idx : List ℚ := (List.range ys.length).map (fun k => (k : ℚ))
    let sx : ℚ := qsum idx
    let sxx : ℚ := qsum (idx.map (fun x => x ^ 2))
    let sy : F := ys.foldr fadd (some 0)
    let sxy : F := (idx.zip ys).foldr (fun p acc => fadd (fmul (some p.1) p.2) acc) (some 0)
    fdiv (fsub (fmul (some n) sxy) (fmul (some sx) sy)) (some (n * sxx - sx ^ 2))

/-- Python slice `xs[a:b]` (used with `0 ≤ a ≤ b ≤ len xs`). -/
def pyslice {α : Type} (xs : List α) (a b : ℕ) : List α := (xs.drop a).take (b - a)

/-- The division guard `1e-10` of the source. -/
def eps : ℚ := 1 / 10000000000

/-- The significance threshold `0.1` of the source. -/
def thr_sig : ℚ := 1 / 10

/-- The fade threshold `0.05` of the source. -/
def thr_fade : ℚ := 1 / 20

/-- The shared window computation of `_detect_divergence_periods` and
`_find_divergence_end`: on the window `[j-W, j)` of the `cvd_zscore`
column `zs` and the `price` column `ps`, the pair
`(trend / (std + 1e-10))` for cvd and price. -/
def norm_trends (sq : ℚ → ℚ) (W : ℕ) (zs ps : List F) (j : ℕ) : F × F :=
  let zw := pyslice zs (j - W) j
  let pw := pyslice ps (j - W) j
  (fdiv (calculate_trend zw) (fadd (fstd sq zw) (some eps)),
   fdiv (calculate_trend pw) (fadd (fstd sq pw) (some eps)))

/-- The divergence trigger of `_detect_divergence_periods`:
`abs(cvd_trend_normalized) > 0.1 and abs(price_trend_normalized) > 0.1
and cvd_trend_normalized * price_trend_normalized < 0`. -/
def divergence_cond (sq : ℚ → ℚ) (W : ℕ) (zs ps : List F) (j : ℕ) : Bool :=
  let t := norm_trends sq W zs ps j
  fgtB (fabs t.1) (some thr_sig) && fgtB (fabs t.2) (some thr_sig) &&
    fltB (fmul t.1 t.2) (some 0)

/-- The stopping test of `_find_divergence_end`:
`cvd * price >= 0 or abs(cvd) < 0.05 or abs(price) < 0.05` on the
re-computed normalized window trends. -/
def divergence_fade (sq : ℚ → ℚ) (W : ℕ) (zs ps : List F) (j : ℕ) : Bool :=
  let t := norm_trends sq W zs ps j
  fgeB (fmul t.1 t.2) (some 0) || fltB (fabs t.1) (some thr_fade) ||
    fltB (fabs t.2) (some thr_fade)

/-- `DivergenceDetector._find_divergence_end`: scan
`j ∈ range(start_idx + 5, min(start_idx + window_size, N))` for the
first `j` where the divergence fades; fall back to
`min(start_idx + window_size, N)`. -/
def find_divergence_end (sq : ℚ → ℚ) (W : ℕ) (zs ps : List F) (N i : ℕ) : ℕ :=
  match (List.range' (i + 5) (min (i + W) N - (i + 5))).find?
      (fun j => divergence_fade sq W zs ps j) with
  | some j => j
  | none => min (i + W) N

/-- One detected divergence period (the dict built by
`_detect_divergence_periods`). -/
structure DivPeriod where
  start_idx : ℕ
  end_idx : ℕ
  start_time : ℚ
  end_time : ℚ
  cvd_trend : F
  price_trend : F
  strength : F
  duration : ℤ
deriving DecidableEq, Repr

/-- The period dict appended on acceptance at scan index `i`. -/
def mk_period (sq : ℚ → ℚ) (W : ℕ) (zs ps : List F) (ts : List ℚ) (N i : ℕ) : DivPeriod :=
  let t := norm_trends sq W zs ps i
  let e := find_divergence_end sq W zs ps N i
  { start_idx := i - W
    end_idx := e
    start_time := ts.getD (i - W) 0
    end_time := ts.getD (e - 1) 0
    cvd_trend := t.1
    price_trend := t.2
    strength := fmin (fabs t.1) (fabs t.2)
    duration := (e : ℤ) - ((i : ℤ) - (W : ℤ)) }

/-- One iteration of the sliding-window loop of
`_detect_divergence_periods`: on trigger, skip if the scan index lies
before the last accepted period's `end_idx`, otherwise append. -/
def div_step (sq : ℚ → ℚ) (W : ℕ) (zs ps : List F) (ts : List ℚ) (N : ℕ)
    (acc : List DivPeriod) (i : ℕ) : List DivPeriod :=
  if divergence_cond sq W zs ps i then
    match acc.getLast? with
    | some lastp =>
        if i < lastp.end_idx then acc else acc ++ [mk_period sq W zs ps ts N i]
    | none => acc ++ [mk_period sq W zs ps ts N i]
  else acc

/-- The scan indices `range(window_size, len(symbol_data) - window_size)`. -/
def scan_range (W N : ℕ) : List ℕ := List.range' W (N - W - W)

/-- `DivergenceDetector._detect_divergence_periods`. -/
def detect_divergence_periods (sq : ℚ → ℚ) (W : ℕ) (zs ps : List F) (ts : List ℚ) :
    List DivPeriod :=
  (scan_range W ts.length).foldl (div_step sq W zs ps ts ts.length) []

/-- One input observation (a row of the dataframe). -/
structure Obs where
  symbol : String
  timestamp : ℚ
  price : ℚ
  cvd : ℚ
  period_volume : ℚ
  trade_count : ℚ
deriving DecidableEq, Repr

/-- `timestamp` order on rows, as a decidable relation for the stable
sort modelling `sort_values('timestamp')`. -/
def ts_le (a b : Obs) : Prop := a.timestamp ≤ b.timestamp

instance : DecidableRel ts_le := fun a b => inferInstanceAs (Decidable (a.timestamp ≤ b.timestamp))

instance : IsTotal Obs ts_le := ⟨fun a b => le_total a.timestamp b.timestamp⟩

instance : IsTrans Obs ts_le := ⟨fun _ _ _ h h' => le_trans h h'⟩

/-- `df.sort_values('timestamp')`, modelled with a stable sort. -/
def sort_by_timestamp (rows : List Obs) : List Obs := List.insertionSort ts_le rows

/-- `df['symbol'].unique()`: distinct symbols in first-occurrence order. -/
def unique_aux : List String → List String → List String
  | [], _ => []
  | s :: rest, seen =>
      if s ∈ seen then unique_aux rest seen else s :: unique_aux rest (s :: seen)

/-- Distinct symbols of a dataframe, first occurrence first. -/
def unique_first (l : List String) : List String := unique_aux l []

/-- `df[df['symbol'] == s].sort_values('timestamp')`. -/
def symbol_rows (df : List Obs) (s : String) : List Obs :=
  sort_by_timestamp (df.filter (fun r => decide (r.symbol = s)))

/-- The length guard `len(symbol_data) < self.window_size * 2` under
which a symbol is skipped. -/
def symbol_skipped (W : ℕ) (df : List Obs) (s : String) : Prop :=
  (symbol_rows df s).length < 2 * W

instance (W : ℕ) (df : List Obs) (s : String) : Decidable (symbol_skipped W df s) :=
  inferInstanceAs (Decidable (_ < _))

/-- The per-symbol pipeline shared by `detect_divergences` and
`get_divergence_periods`: sort by timestamp, skip short series, z-score
the `cvd` column, run the sliding-window scan.  A skipped symbol yields
`[]`, exactly as the `continue` of the source does observably. -/
def symbol_periods (sq : ℚ → ℚ) (W : ℕ) (df : List Obs) (s : String) : List DivPeriod :=
  let sd := symbol_rows df s
  if sd.length < 2 * W then []
  else
    detect_divergence_periods sq W
      (calculate_z_score sq (sd.map Obs.cvd))
      (sd.map (fun r => some r.price))
      (sd.map Obs.timestamp)

/-- Python's `list(set(xs))`.  The iteration order of a Python set is
unspecified; only membership of the result is ever relied upon, and the
input is already duplicate-free on the modelled path. -/
def py_set_list (xs : List String) : List String := xs.dedup

/-- `DivergenceDetector.detect_divergences` (the typed-dataframe path):
the symbols whose scan accepted at least one period. -/
def detect_divergences (sq : ℚ → ℚ) (W : ℕ) (df : List Obs) : List String :=
  py_set_list ((unique_first (df.map Obs.symbol)).filter
    (fun s => !(symbol_periods sq W df s).isEmpty))

/-- `DivergenceDetector.get_divergence_periods`: insertion-ordered dict
from symbol to its non-empty period list. -/
def get_divergence_periods (sq : ℚ → ℚ) (W : ℕ) (df : List Obs) :
    List (String × List DivPeriod) :=
  (unique_first (df.map Obs.symbol)).filterMap
    (fun s =>
      let ps := symbol_periods sq W df s
      if ps.isEmpty then none else some (s, ps))

/-- A Python exception: `pandas` raises `KeyError` on a missing column,
the ranking code raises `ValueError` explicitly.  The `SchemaError` and
`InvalidMetric` classes of the specification do not occur anywhere in
the source. -/
inductive PyExc where
  | keyError (col : String)
  | valueError (msg : String)
deriving DecidableEq, Repr

/-- A dataframe together with the set of columns it actually has, for
modelling column access on malformed input. -/
structure PdFrame where
  rows : List Obs
  cols : List String
deriving Repr

/-- Accessing column `c` of a dataframe: `KeyError` when absent. -/
def get_col (df : PdFrame) (c : String) : Except PyExc Unit :=
  if c ∈ df.cols then Except.ok () else Except.error (PyExc.keyError c)

/-- The body of the per-symbol loop of `detect_divergences`, with every
column access at its place in the source: `sort_values('timestamp')`,
then the length guard, then the z-score transform reading `'cvd'`, and
`'price'` read only when the sliding window actually evaluates at least
one position. -/
def detect_step (sq : ℚ → ℚ) (W : ℕ) (df : PdFrame) (acc : List String) (s : String) :
    Except PyExc (List String) := do
  _ ← get_col df "timestamp"
  let sd := symbol_rows df.rows s
  if sd.length < 2 * W then pure acc
  else do
    _ ← get_col df "cvd"
    if (scan_range W sd.length).isEmpty then
      pure (if (symbol_periods sq W df.rows s).isEmpty then acc else acc ++ [s])
    else do
      _ ← get_col df "price"
      pure (if (symbol_periods sq W df.rows s).isEmpty then acc else acc ++ [s])

/-- `DivergenceDetector.detect_divergences` on a dataframe that may be
missing columns: `df['symbol'].unique()` is read before the loop, all
other columns inside it. -/
def detect_divergencesE (sq : ℚ → ℚ) (W : ℕ) (df : PdFrame) :
    Except PyExc (List String) := do
  _ ← get_col df "symbol"
  let out ← (unique_first (df.rows.map Obs.symbol)).foldlM (detect_step sq W df) []
  pure (py_set_list out)

/-- One row of the ranking output: `[['symbol', metric, rank]]` renamed
to `symbol, value, rank`. -/
structure RankedRow where
  symbol : String
  value : ℚ
  rank : ℕ
deriving DecidableEq, Repr

/-- `groupby('symbol').tail(1)`: keep each row that is the last of its
symbol, preserving the order of the (already timestamp-sorted) input. -/
def tail_one : List Obs → List Obs
  | [] => []
  | r :: rest =>
      if rest.any (fun r2 => decide (r2.symbol = r.symbol)) then tail_one rest
      else r :: tail_one rest

/-- Descending order by a metric, as used by
`sort_values(metric, ascending=False)`. -/
def desc_by (get : Obs → ℚ) (a b : Obs) : Prop := get b ≤ get a

instance (get : Obs → ℚ) : DecidableRel (desc_by get) :=
  fun a b => inferInstanceAs (Decidable (get b ≤ get a))

instance (get : Obs → ℚ) : IsTotal Obs (desc_by get) :=
  ⟨fun a b => le_total (get b) (get a)⟩

instance (get : Obs → ℚ) : IsTrans Obs (desc_by get) :=
  ⟨fun _ _ _ h h' => le_trans h' h⟩

/-- `latest_data[metric_rank] = range(1, len + 1)`: attach ranks `k,
k+1, …` down the sorted rows. -/
def with_ranks (get : Obs → ℚ) : ℕ → List Obs → List RankedRow
  | _, [] => []
  | k, r :: rest => ⟨r.symbol, get r, k⟩ :: with_ranks get (k + 1) rest

/-- The shared body of the three metric branches of
`RankCalculator.calculate_rankings`: latest row per symbol, sorted
descending by the metric, ranked from 1. -/
def rank_core (get : Obs → ℚ) (rows : List Obs) : List RankedRow :=
  with_ranks get 1
    (List.insertionSort (desc_by get) (tail_one (sort_by_timestamp rows)))

/-- The metric allow-list of the ranking engine. -/
def valid_metrics : List String := ["period_volume", "trade_count", "cvd"]

/-- `RankCalculator.calculate_rankings`: the column-existence check
comes first and raises `ValueError("指标 … 不存在于数据中")`; a present
column outside the allow-list falls through to
`ValueError("不支持的排名指标: …")`.  Each branch re-reads `'timestamp'`
and `'symbol'`, modelled by the corresponding column accesses. -/
def calculate_rankings (df : PdFrame) (metric : String) :
    Except PyExc (List RankedRow) :=
  if metric ∉ df.cols then
    Except.error (PyExc.valueError ("指标 " ++ metric ++ " 不存在于数据中"))
  else if metric = "period_volume" then do
    _ ← get_col df "timestamp"
    _ ← get_col df "symbol"
    pure (rank_core Obs.period_volume df.rows)
  else if metric = "trade_count" then do
    _ ← get_col df "timestamp"
    _ ← get_col df "symbol"
    pure (rank_core Obs.trade_count df.rows)
  else if metric = "cvd" then do
    _ ← get_col df "timestamp"
    _ ← get_col df "symbol"
    pure (rank_core Obs.cvd df.rows)
  else
    Except.error (PyExc.valueError ("不支持的排名指标: " ++ metric))

/-- Whether `pat` occurs at the start of `l` (for reasoning about error
message contents). -/
def starts_with_seq : List Char → List Char → Bool
  | [], _ => true
  | _ :: _, [] => false
  | a :: ps, b :: ls => a == b && starts_with_seq ps ls

/-- Whether `pat` occurs contiguously anywhere in `l`. -/
def contains_seq (pat : List Char) : List Char → Bool
  | [] => starts_with_seq pat []
  | b :: ls => starts_with_seq pat (b :: ls) || contains_seq pat ls

/-- The invariant maintained by the scan loop: every period starts at
`i - W` for its scan index `i` and ends in `(i, i + W]`; consecutive
periods have strictly increasing starts; and the scan index of each
accepted period (its `start_idx + W`) is at least the previous period's
`end_idx`. -/
def periods_ok (W : ℕ) (l : List DivPeriod) : Prop :=
  (∀ p ∈ l, W + p.start_idx < p.end_idx ∧ p.end_idx ≤ p.start_idx + 2 * W) ∧
  List.Chain' (fun p q => p.end_idx ≤ q.start_idx + W) l ∧
  List.Chain' (fun p q => p.start_idx < q.start_idx) l

/-- A square-root table for the concrete run below.  On the five values
whose root decides the engine's output (the total cvd variance 36 and
the window variances 1/36, 100 and 1) it is the exact nonnegative
square root, certified inside `c1_overlap_counterexample`; on the two
window variances of suppressed or rejected scan indices (73/108 and 28)
it is a nonnegative approximation, which cannot change any decision:
the normalized-trend signs do not depend on the value and the rejected
index fails on the sign condition alone. -/
def sq_c1 : ℚ → ℚ := fun q =>
  if q = 36 then 6 else if q = 1 / 36 then 1 / 6 else if q = 100 then 10
  else if q = 1 then 1 else if q = 73 / 108 then 4 / 5 else if q = 28 then 5 else 0

/-- A ten-point single-symbol dataset (window size 3) on which the
engine accepts overlapping periods: the cvd column is affine on the
windows `[0,3)` and `[3,6)` (slope 1, hence a clearly rising zscore
trend) while the price column falls on both, and the total cvd sample
variance is exactly 36. -/
def c1rows : List Obs :=
  [⟨"BTC", 0, 30, -6, 1, 1⟩, ⟨"BTC", 1, 20, -5, 1, 1⟩, ⟨"BTC", 2, 10, -4, 1, 1⟩,
   ⟨"BTC", 3, 12, 4, 1, 1⟩, ⟨"BTC", 4, 11, 5, 1, 1⟩, ⟨"BTC", 5, 10, 6, 1, 1⟩,
   ⟨"BTC", 6, 1, 9, 1, 1⟩, ⟨"BTC", 7, 1, -9, 1, 1⟩, ⟨"BTC", 8, 1, 2, 1, 1⟩,
   ⟨"BTC", 9, 1, -2, 1, 1⟩]

/-- The z-scored cvd column of `c1rows` (total mean 0, std 6). -/
def c1z : List F :=
  [some (-1), some (-5 / 6), some (-2 / 3), some (2 / 3), some (5 / 6), some 1,
   some (3 / 2), some (-3 / 2), some (1 / 3), some (-1 / 3)]

/-- The price column of `c1rows` as floats. -/
def c1p : List F :=
  [some 30, some 20, some 10, some 12, some 11, some 10, some 1, some 1,
   some 1, some 1]

/-- The timestamp column of `c1rows`. -/
def c1ts : List ℚ := [0, 1, 2, 3, 4, 5, 6, 7, 8, 9]

/-- An identity stand-in for the square root, usable wherever the run
never actually consults it. -/
def sq_id : ℚ → ℚ := fun q => q

/-- A six-row single-symbol dataset: length exactly `2 W` for `W = 3`. -/
def c2rows : List Obs :=
  [⟨"A", 0, 1, 0, 1, 1⟩, ⟨"A", 1, 2, 1, 1, 1⟩, ⟨"A", 2, 3, 2, 1, 1⟩,
   ⟨"A", 3, 4, 3, 1, 1⟩, ⟨"A", 4, 5, 4, 1, 1⟩, ⟨"A", 5, 6, 5, 1, 1⟩]

/-- The full column set of a well-formed input dataframe. -/
def std_cols : List String :=
  ["symbol", "timestamp", "price", "cvd", "period_volume", "trade_count"]

/-- A one-row dataframe whose `price` column is missing. -/
def c3frame : PdFrame :=
  ⟨[⟨"A", 0, 1, 1, 1, 1⟩],
   ["symbol", "timestamp", "cvd", "period_volume", "trade_count"]⟩

/-- A one-row dataframe with the full standard column set. -/
def c6frame : PdFrame := ⟨[⟨"A", 0, 1, 1, 1, 1⟩], std_cols⟩

/-- The column read by each ranking branch. -/
def metric_get (metric : String) : Obs → ℚ :=
  if metric = "period_volume" then Obs.period_volume
  else if metric = "trade_count" then Obs.trade_count
  else Obs.cvd

/-- A four-row, two-symbol dataframe with the standard columns. -/
def c7frame : PdFrame :=
  ⟨[⟨"A", 0, 1, 1, 5, 2⟩, ⟨"B", 1, 1, 1, 7, 3⟩,
    ⟨"A", 2, 1, 1, 6, 4⟩, ⟨"B", 3, 1, 1, 4, 1⟩], std_cols⟩

/-- The raw `cvd` column carries no `NaN`, so `pandas`' skip-`NaN` view
of it is the column itself. -/
lemma fvalid_map_some (xs : List ℚ) : fvalid (xs.map some) = xs := by
  simp [fvalid, List.filterMap_map, Function.comp]

lemma mem_unique_aux (l : List String) :
    ∀ (seen : List String) (s : String), s ∈ unique_aux l seen ↔ s ∈ l ∧ s ∉ seen := by
  induction l with
  | nil => simp [unique_aux]
  | cons a t ih =>
      intro seen s
      by_cases ha : a ∈ seen
      · rw [unique_aux, if_pos ha, ih]
        by_cases hsa : s = a
        · subst hsa; simp [ha]
        · simp [List.mem_cons, hsa]
      · rw [unique_aux, if_neg ha, List.mem_cons]
        by_cases hsa : s = a
        · subst hsa; simp [ha]
        · simp [List.mem_cons, hsa, ih]

lemma mem_unique_first (l : List String) (s : String) :
    s ∈ unique_first l ↔ s ∈ l := by
  simp [unique_first, mem_unique_aux]

lemma nodup_unique_aux (l : List String) :
    ∀ seen : List String, (unique_aux l seen).Nodup := by
  induction l with
  | nil => intro _; simp [unique_aux]
  | cons a t ih =>
      intro seen
      by_cases ha : a ∈ seen
      · simpa [unique_aux, if_pos ha] using ih seen
      · rw [unique_aux, if_neg ha]
        refine List.nodup_cons.2 ⟨?_, ih (a :: seen)⟩
        intro hmem
        exact ((mem_unique_aux t (a :: seen) a).1 hmem).2 (List.mem_cons_self a seen)

lemma nodup_unique_first (l : List String) : (unique_first l).Nodup :=
  nodup_unique_aux l []

/-- Elements of the sliding-window index range `range(W, N - W)`. -/
lemma mem_scan_range {W N i : ℕ} (h : i ∈ scan_range W N) : W ≤ i ∧ i + W < N := by
  rw [scan_range, List.mem_range'_1] at h
  omega

/-- With `window_size = 0` every window slice is empty, its standard
deviation is `NaN`, and the trigger comparisons are all false. -/
lemma divergence_cond_W0 (sq : ℚ → ℚ) (zs ps : List F) (i : ℕ) :
    divergence_cond sq 0 zs ps i = false := by
  simp [divergence_cond, norm_trends, pyslice, fstd, fvalid, fadd, fdiv, fabs,
    fgtB, fltB, calculate_trend]

/-- Bounds on the boundary-extension result when the scan index is in
range: it lies in `(i, i + W]`. -/
lemma find_divergence_end_bounds (sq : ℚ → ℚ) (W : ℕ) (zs ps : List F) (N i : ℕ)
    (hiN : i + W ≤ N) (hW : 1 ≤ W) :
    i + 1 ≤ find_divergence_end sq W zs ps N i ∧
      find_divergence_end sq W zs ps N i ≤ i + W := by
  have hb : min (i + W) N = i + W := min_eq_left hiN
  unfold find_divergence_end
  cases hfind : (List.range' (i + 5) (min (i + W) N - (i + 5))).find?
      (fun j => divergence_fade sq W zs ps j) with
  | none => dsimp only; rw [hb]; omega
  | some j =>
      have hj := List.mem_of_find?_eq_some hfind
      rw [List.mem_range'_1, hb] at hj
      dsimp only
      omega

/-- `List.find?` on a strictly increasing list returns the least
satisfying element. -/
lemma find_first_sorted {p : ℕ → Bool} :
    ∀ l : List ℕ, l.Pairwise (· < ·) → ∀ j, l.find? p = some j →
      j ∈ l ∧ p j = true ∧ ∀ k ∈ l, k < j → p k = false := by
  intro l
  induction l with
  | nil => intro _ j h; simp at h
  | cons a t ih =>
      intro hp j hfind
      by_cases hpa : p a
      · rw [List.find?_cons_of_pos _ hpa] at hfind
        cases hfind
        refine ⟨List.mem_cons_self _ _, hpa, ?_⟩
        intro k hk hkj
        rcases List.mem_cons.1 hk with rfl | hk
        · omega
        · exact absurd (List.rel_of_pairwise_cons hp hk) (by omega)
      · rw [List.find?_cons_of_neg _ hpa] at hfind
        obtain ⟨hj1, hj2, hj3⟩ := ih hp.of_cons j hfind
        refine ⟨List.mem_cons_of_mem _ hj1, hj2, ?_⟩
        intro k hk hkj
        rcases List.mem_cons.1 hk with rfl | hk
        · exact Bool.eq_false_iff.2 hpa
        · exact hj3 k hk hkj

/-- Every step of the scan loop only appends to the accumulator. -/
lemma div_step_append (sq : ℚ → ℚ) (W : ℕ) (zs ps : List F) (ts : List ℚ) (N : ℕ)
    (acc : List DivPeriod) (i : ℕ) :
    ∃ t, div_step sq W zs ps ts N acc i = acc ++ t := by
  unfold div_step
  by_cases hc : divergence_cond sq W zs ps i
  · rw [if_pos hc]
    cases hl : acc.getLast? with
    | none => exact ⟨_, rfl⟩
    | some lp =>
        dsimp only
        by_cases hi : i < lp.end_idx
        · rw [if_pos hi]; exact ⟨[], (List.append_nil acc).symm⟩
        · rw [if_neg hi]; exact ⟨_, rfl⟩
  · rw [if_neg hc]; exact ⟨[], (List.append_nil acc).symm⟩

lemma foldl_div_step_append (sq : ℚ → ℚ) (W : ℕ) (zs ps : List F) (ts : List ℚ) (N : ℕ) :
    ∀ (is : List ℕ) (acc : List DivPeriod),
      ∃ t, is.foldl (div_step sq W zs ps ts N) acc = acc ++ t := by
  intro is
  induction is with
  | nil => exact fun acc => ⟨[], (List.append_nil acc).symm⟩
  | cons i rest ih =>
      intro acc
      obtain ⟨t1, ht1⟩ := div_step_append sq W zs ps ts N acc i
      obtain ⟨t2, ht2⟩ := ih (div_step sq W zs ps ts N acc i)
      refine ⟨t1 ++ t2, ?_⟩
      rw [List.foldl_cons, ht2, ht1, List.append_assoc]

lemma mem_foldl_div_step (sq : ℚ → ℚ) (W : ℕ) (zs ps : List F) (ts : List ℚ) (N : ℕ)
    (is : List ℕ) (acc : List DivPeriod) {p : DivPeriod} (hp : p ∈ acc) :
    p ∈ is.foldl (div_step sq W zs ps ts N) acc := by
  obtain ⟨t, ht⟩ := foldl_div_step_append sq W zs ps ts N is acc
  rw [ht]
  exact List.mem_append_left _ hp

/-- Case analysis on membership after one scan step. -/
lemma div_step_cases (sq : ℚ → ℚ) (W : ℕ) (zs ps : List F) (ts : List ℚ) (N : ℕ)
    (acc : List DivPeriod) (i : ℕ) {p : DivPeriod}
    (h : p ∈ div_step sq W zs ps ts N acc i) :
    p ∈ acc ∨ (divergence_cond sq W zs ps i = true ∧ p = mk_period sq W zs ps ts N i) := by
  unfold div_step at h
  by_cases hc : divergence_cond sq W zs ps i
  · rw [if_pos hc] at h
    cases hl : acc.getLast? with
    | none =>
        rw [hl] at h
        rcases List.mem_append.1 h with h | h
        · exact Or.inl h
        · exact Or.inr ⟨hc, by simpa using h⟩
    | some lp =>
        rw [hl] at h
        dsimp only at h
        by_cases hi : i < lp.end_idx
        · rw [if_pos hi] at h; exact Or.inl h
        · rw [if_neg hi] at h
          rcases List.mem_append.1 h with h | h
          · exact Or.inl h
          · exact Or.inr ⟨hc, by simpa using h⟩
  · rw [if_neg hc] at h; exact Or.inl h

/-- Everything the scan emits comes from a trigger at some processed
scan index. -/
lemma foldl_div_step_sound (sq : ℚ → ℚ) (W : ℕ) (zs ps : List F) (ts : List ℚ) (N : ℕ) :
    ∀ (is : List ℕ) (acc : List DivPeriod) (p : DivPeriod),
      p ∈ is.foldl (div_step sq W zs ps ts N) acc →
      p ∈ acc ∨ ∃ i ∈ is, divergence_cond sq W zs ps i = true ∧
        p = mk_period sq W zs ps ts N i := by
  intro is
  induction is with
  | nil => intro acc p hp; exact Or.inl (by simpa using hp)
  | cons i rest ih =>
      intro acc p hp
      rw [List.foldl_cons] at hp
      rcases ih _ p hp with h | ⟨j, hj1, hj2, hj3⟩
      · rcases div_step_cases sq W zs ps ts N acc i h with h | ⟨hc, hm⟩
        · exact Or.inl h
        · exact Or.inr ⟨i, List.mem_cons_self _ _, hc, hm⟩
      · exact Or.inr ⟨j, List.mem_cons_of_mem _ hj1, hj2, hj3⟩

lemma getLast?_mem_list {α : Type} {l : List α} {a : α} (h : l.getLast? = some a) :
    a ∈ l := by
  have hx : a ∈ l.getLast? := Option.mem_def.2 h
  obtain ⟨hne, rfl⟩ := List.mem_getLast?_eq_getLast hx
  exact List.getLast_mem hne

lemma mk_period_bounds (sq : ℚ → ℚ) (W : ℕ) (zs ps : List F) (ts : List ℚ) (N i : ℕ)
    (hW : 1 ≤ W) (hiW : W ≤ i) (hiN : i + W ≤ N) :
    W + (mk_period sq W zs ps ts N i).start_idx < (mk_period sq W zs ps ts N i).end_idx ∧
      (mk_period sq W zs ps ts N i).end_idx ≤ (mk_period sq W zs ps ts N i).start_idx + 2 * W := by
  have hb := find_divergence_end_bounds sq W zs ps N i hiN hW
  simp only [mk_period]
  omega

lemma div_step_ok (sq : ℚ → ℚ) (W : ℕ) (zs ps : List F) (ts : List ℚ) (N : ℕ)
    (hW : 1 ≤ W) (acc : List DivPeriod) (i : ℕ) (hiW : W ≤ i) (hiN : i + W ≤ N)
    (hok : periods_ok W acc) : periods_ok W (div_step sq W zs ps ts N acc i) := by
  unfold div_step
  by_cases hc : divergence_cond sq W zs ps i
  · rw [if_pos hc]
    cases hl : acc.getLast? with
    | none =>
        have hacc : acc = [] := List.getLast?_eq_none_iff.1 hl
        subst hacc
        dsimp only
        refine ⟨?_, ?_, ?_⟩
        · intro p hp
          have hp2 : p = mk_period sq W zs ps ts N i := by simpa using hp
          rw [hp2]
          exact mk_period_bounds sq W zs ps ts N i hW hiW hiN
        · simp
        · simp
    | some lp =>
        dsimp only
        by_cases hi : i < lp.end_idx
        · rw [if_pos hi]; exact hok
        · rw [if_neg hi]
          have hlpmem : lp ∈ acc := getLast?_mem_list hl
          have hlpb := hok.1 lp hlpmem
          have hmkb := mk_period_bounds sq W zs ps ts N i hW hiW hiN
          have hstart : (mk_period sq W zs ps ts N i).start_idx = i - W := rfl
          refine ⟨?_, ?_, ?_⟩
          · intro p hp
            rcases List.mem_append.1 hp with hp | hp
            · exact hok.1 p hp
            · rw [List.mem_singleton.1 hp]
              exact hmkb
          · rw [List.chain'_append]
            refine ⟨hok.2.1, by simp, ?_⟩
            intro x hx y hy
            rw [hl] at hx
            simp at hx hy
            subst hx; subst hy
            simp only [hstart]
            omega
          · rw [List.chain'_append]
            refine ⟨hok.2.2, by simp, ?_⟩
            intro x hx y hy
            rw [hl] at hx
            simp at hx hy
            subst hx; subst hy
            simp only [hstart]
            omega
  · rw [if_neg hc]; exact hok

lemma foldl_div_step_ok (sq : ℚ → ℚ) (W : ℕ) (zs ps : List F) (ts : List ℚ) (N : ℕ)
    (hW : 1 ≤ W) :
    ∀ (is : List ℕ) (acc : List DivPeriod), (∀ i ∈ is, W ≤ i ∧ i + W ≤ N) →
      periods_ok W acc → periods_ok W (is.foldl (div_step sq W zs ps ts N) acc) := by
  intro is
  induction is with
  | nil => intro acc _ hok; exact hok
  | cons i rest ih =>
      intro acc hmem hok
      rw [List.foldl_cons]
      refine ih _ (fun j hj => hmem j (List.mem_cons_of_mem _ hj)) ?_
      have hi := hmem i (List.mem_cons_self _ _)
      exact div_step_ok sq W zs ps ts N hW acc i hi.1 hi.2 hok

lemma foldl_div_step_W0 (sq : ℚ → ℚ) (zs ps : List F) (ts : List ℚ) (N : ℕ) :
    ∀ (is : List ℕ) (acc : List DivPeriod),
      is.foldl (div_step sq 0 zs ps ts N) acc = acc := by
  intro is
  induction is with
  | nil => intro acc; rfl
  | cons i rest ih =>
      intro acc
      rw [List.foldl_cons]
      have : div_step sq 0 zs ps ts N acc i = acc := by
        unfold div_step
        rw [divergence_cond_W0]
        simp
      rw [this, ih]

lemma detect_divergence_periods_ok (sq : ℚ → ℚ) (W : ℕ) (zs ps : List F) (ts : List ℚ) :
    periods_ok W (detect_divergence_periods sq W zs ps ts) := by
  rcases Nat.eq_zero_or_pos W with rfl | hW
  · rw [detect_divergence_periods, foldl_div_step_W0]
    exact ⟨by simp, by simp, by simp⟩
  · rw [detect_divergence_periods]
    refine foldl_div_step_ok sq W zs ps ts ts.length hW _ [] ?_ ⟨by simp, by simp, by simp⟩
    intro i hi
    have := mem_scan_range hi
    omega

/-- Per-symbol period lists of the full pipeline satisfy the scan
invariant. -/
lemma symbol_periods_ok (sq : ℚ → ℚ) (W : ℕ) (df : List Obs) (s : String) :
    periods_ok W (symbol_periods sq W df s) := by
  unfold symbol_periods
  by_cases h : (symbol_rows df s).length < 2 * W
  · rw [if_pos h]; exact ⟨by simp, by simp, by simp⟩
  · rw [if_neg h]; exact detect_divergence_periods_ok sq W _ _ _

lemma mem_get_divergence_periods (sq : ℚ → ℚ) (W : ℕ) (df : List Obs)
    (pr : String × List DivPeriod) :
    pr ∈ get_divergence_periods sq W df ↔
      pr.1 ∈ unique_first (df.map Obs.symbol) ∧
      pr.2 = symbol_periods sq W df pr.1 ∧ pr.2 ≠ [] := by
  unfold get_divergence_periods
  rw [List.mem_filterMap]
  constructor
  · rintro ⟨s, hs, hf⟩
    by_cases he : (symbol_periods sq W df s).isEmpty
    · rw [if_pos he] at hf; exact absurd hf (by simp)
    · rw [if_neg he] at hf
      have hpr : pr = (s, symbol_periods sq W df s) := by
        cases hf; rfl
      subst hpr
      exact ⟨hs, rfl, by simpa [List.isEmpty_iff] using he⟩
  · rintro ⟨h1, h2, h3⟩
    refine ⟨pr.1, h1, ?_⟩
    have he : ¬ (symbol_periods sq W df pr.1).isEmpty := by
      rw [← h2]
      simpa [List.isEmpty_iff] using h3
    rw [if_neg he, ← h2]

/-- C1, amended.  For every dataset and symbol the returned period list
satisfies `end_idx > start_idx` and is strictly sorted by `start_idx`;
but consecutive periods only satisfy
`period[k+1].start_idx + W ≥ period[k].end_idx` (the *scan index* of
the later period clears the earlier period's end), not the claimed
`period[k+1].start_idx ≥ period[k].end_idx`. -/
theorem c1_period_invariant_amended (sq : ℚ → ℚ) (W : ℕ) (df : List Obs) :
    ∀ pr ∈ get_divergence_periods sq W df,
      (∀ p ∈ pr.2, p.start_idx < p.end_idx) ∧
      List.Chain' (fun p q => p.start_idx < q.start_idx) pr.2 ∧
      List.Chain' (fun p q => p.end_idx ≤ q.start_idx + W) pr.2 := by
  intro pr hpr
  obtain ⟨_, h2, _⟩ := (mem_get_divergence_periods sq W df pr).1 hpr
  have hok := symbol_periods_ok sq W df pr.1
  rw [← h2] at hok
  refine ⟨fun p hp => ?_, hok.2.2, hok.2.1⟩
  have := hok.1 p hp
  omega

lemma c1_sr : symbol_rows c1rows "BTC" = c1rows := by decide

lemma c1_cvd_col : c1rows.map Obs.cvd = [-6, -5, -4, 4, 5, 6, 9, -9, 2, -2] := by decide

lemma c1_price_col : c1rows.map (fun r => some r.price) = c1p := by decide

lemma c1_ts_col : c1rows.map Obs.timestamp = c1ts := by decide

lemma c1_zcol : calculate_z_score sq_c1 [-6, -5, -4, 4, 5, 6, 9, -9, 2, -2] = c1z := by
  norm_num [calculate_z_score, fstd, fvalid, svar, qmean, qsum, sq_c1, fdiv, c1z,
    List.filterMap]

lemma c1_tz3 : calculate_trend [some (-1 : ℚ), some (-5 / 6), some (-2 / 3)] = some (1 / 6) := by
  norm_num [calculate_trend, qsum, fadd, fmul, fsub, fdiv, List.range, List.range.loop]

lemma c1_sz3 : fstd sq_c1 [some (-1 : ℚ), some (-5 / 6), some (-2 / 3)] = some (1 / 6) := by
  norm_num [fstd, fvalid, svar, qmean, qsum, sq_c1, List.filterMap]

lemma c1_tz4 : calculate_trend [some (-5 / 6 : ℚ), some (-2 / 3), some (2 / 3)] = some (3 / 4) := by
  norm_num [calculate_trend, qsum, fadd, fmul, fsub, fdiv, List.range, List.range.loop]

lemma c1_sz4 : fstd sq_c1 [some (-5 / 6 : ℚ), some (-2 / 3), some (2 / 3)] = some (4 / 5) := by
  norm_num [fstd, fvalid, svar, qmean, qsum, sq_c1, List.filterMap]

lemma c1_tz5 : calculate_trend [some (-2 / 3 : ℚ), some (2 / 3), some (5 / 6)] = some (3 / 4) := by
  norm_num [calculate_trend, qsum, fadd, fmul, fsub, fdiv, List.range, List.range.loop]

lemma c1_sz5 : fstd sq_c1 [some (-2 / 3 : ℚ), some (2 / 3), some (5 / 6)] = some (4 / 5) := by
  norm_num [fstd, fvalid, svar, qmean, qsum, sq_c1, List.filterMap]

lemma c1_tz6 : calculate_trend [some (2 / 3 : ℚ), some (5 / 6), some 1] = some (1 / 6) := by
  norm_num [calculate_trend, qsum, fadd, fmul, fsub, fdiv, List.range, List.range.loop]

lemma c1_sz6 : fstd sq_c1 [some (2 / 3 : ℚ), some (5 / 6), some 1] = some (1 / 6) := by
  norm_num [fstd, fvalid, svar, qmean, qsum, sq_c1, List.filterMap]

lemma c1_tp3 : calculate_trend [some (30 : ℚ), some 20, some 10] = some (-10) := by
  norm_num [calculate_trend, qsum, fadd, fmul, fsub, fdiv, List.range, List.range.loop]

lemma c1_sp3 : fstd sq_c1 [some (30 : ℚ), some 20, some 10] = some 10 := by
  norm_num [fstd, fvalid, svar, qmean, qsum, sq_c1, List.filterMap]

lemma c1_tp4 : calculate_trend [some (20 : ℚ), some 10, some 12] = some (-4) := by
  norm_num [calculate_trend, qsum, fadd, fmul, fsub, fdiv, List.range, List.range.loop]

lemma c1_sp4 : fstd sq_c1 [some (20 : ℚ), some 10, some 12] = some 5 := by
  norm_num [fstd, fvalid, svar, qmean, qsum, sq_c1, List.filterMap]

lemma c1_tp5 : calculate_trend [some (10 : ℚ), some 12, some 11] = some (1 / 2) := by
  norm_num [calculate_trend, qsum, fadd, fmul, fsub, fdiv, List.range, List.range.loop]

lemma c1_sp5 : fstd sq_c1 [some (10 : ℚ), some 12, some 11] = some 1 := by
  norm_num [fstd, fvalid, svar, qmean, qsum, sq_c1, List.filterMap]

lemma c1_tp6 : calculate_trend [some (12 : ℚ), some 11, some 10] = some (-1) := by
  norm_num [calculate_trend, qsum, fadd, fmul, fsub, fdiv, List.range, List.range.loop]

lemma c1_sp6 : fstd sq_c1 [some (12 : ℚ), some 11, some 10] = some 1 := by
  norm_num [fstd, fvalid, svar, qmean, qsum, sq_c1, List.filterMap]

lemma c1_zw3 : pyslice c1z (3 - 3) 3 = [some (-1 : ℚ), some (-5 / 6), some (-2 / 3)] := rfl

lemma c1_pw3 : pyslice c1p (3 - 3) 3 = [some (30 : ℚ), some 20, some 10] := rfl

lemma c1_zw4 : pyslice c1z (4 - 3) 4 = [some (-5 / 6 : ℚ), some (-2 / 3), some (2 / 3)] := rfl

lemma c1_pw4 : pyslice c1p (4 - 3) 4 = [some (20 : ℚ), some 10, some 12] := rfl

lemma c1_zw5 : pyslice c1z (5 - 3) 5 = [some (-2 / 3 : ℚ), some (2 / 3), some (5 / 6)] := rfl

lemma c1_pw5 : pyslice c1p (5 - 3) 5 = [some (10 : ℚ), some 12, some 11] := rfl

lemma c1_zw6 : pyslice c1z (6 - 3) 6 = [some (2 / 3 : ℚ), some (5 / 6), some 1] := rfl

lemma c1_pw6 : pyslice c1p (6 - 3) 6 = [some (12 : ℚ), some 11, some 10] := rfl

lemma c1_cond3 : divergence_cond sq_c1 3 c1z c1p 3 = true := by
  unfold divergence_cond norm_trends
  dsimp only
  rw [c1_zw3, c1_pw3, c1_tz3, c1_sz3, c1_tp3, c1_sp3]
  norm_num [fadd, fdiv, fabs, fmul, fltB, fgtB, eps, thr_sig, abs_of_nonneg,
    abs_of_nonpos]

lemma c1_cond4 : divergence_cond sq_c1 3 c1z c1p 4 = true := by
  unfold divergence_cond norm_trends
  dsimp only
  rw [c1_zw4, c1_pw4, c1_tz4, c1_sz4, c1_tp4, c1_sp4]
  norm_num [fadd, fdiv, fabs, fmul, fltB, fgtB, eps, thr_sig, abs_of_nonneg,
    abs_of_nonpos]

lemma c1_cond5 : divergence_cond sq_c1 3 c1z c1p 5 = false := by
  unfold divergence_cond norm_trends
  dsimp only
  rw [c1_zw5, c1_pw5, c1_tz5, c1_sz5, c1_tp5, c1_sp5]
  norm_num [fadd, fdiv, fabs, fmul, fltB, fgtB, eps, thr_sig, abs_of_nonneg,
    abs_of_nonpos]

lemma c1_cond6 : divergence_cond sq_c1 3 c1z c1p 6 = true := by
  unfold divergence_cond norm_trends
  dsimp only
  rw [c1_zw6, c1_pw6, c1_tz6, c1_sz6, c1_tp6, c1_sp6]
  norm_num [fadd, fdiv, fabs, fmul, fltB, fgtB, eps, thr_sig, abs_of_nonneg,
    abs_of_nonpos]

lemma c1_end3 : find_divergence_end sq_c1 3 c1z c1p 10 3 = 6 := by decide

lemma c1_end6 : find_divergence_end sq_c1 3 c1z c1p 10 6 = 9 := by decide

lemma c1_mk3_end : (mk_period sq_c1 3 c1z c1p c1ts 10 3).end_idx = 6 := by
  simp only [mk_period]
  exact c1_end3

lemma c1_mk6_end : (mk_period sq_c1 3 c1z c1p c1ts 10 6).end_idx = 9 := by
  simp only [mk_period]
  exact c1_end6

lemma c1_detect_eval :
    detect_divergence_periods sq_c1 3 c1z c1p c1ts =
      [mk_period sq_c1 3 c1z c1p c1ts 10 3, mk_period sq_c1 3 c1z c1p c1ts 10 6] := by
  have hlen : c1ts.length = 10 := rfl
  have hsr : scan_range 3 10 = [3, 4, 5, 6] := rfl
  unfold detect_divergence_periods
  rw [hlen, hsr]
  simp only [List.foldl_cons, List.foldl_nil]
  simp [div_step, c1_cond3, c1_cond4, c1_cond5, c1_cond6, c1_mk3_end]

lemma c1_symbol_periods :
    symbol_periods sq_c1 3 c1rows "BTC" =
      [mk_period sq_c1 3 c1z c1p c1ts 10 3, mk_period sq_c1 3 c1z c1p c1ts 10 6] := by
  unfold symbol_periods
  dsimp only
  rw [c1_sr]
  rw [if_neg (by decide : ¬ (c1rows.length < 2 * 3))]
  rw [c1_cvd_col, c1_zcol, c1_price_col, c1_ts_col]
  exact c1_detect_eval

lemma c1_dict :
    get_divergence_periods sq_c1 3 c1rows =
      [("BTC", symbol_periods sq_c1 3 c1rows "BTC")] := by
  have hne : (symbol_periods sq_c1 3 c1rows "BTC").isEmpty = false := by
    rw [c1_symbol_periods]; rfl
  have hu : unique_first (c1rows.map Obs.symbol) = ["BTC"] := by decide
  unfold get_divergence_periods
  rw [hu]
  simp [List.filterMap, hne]

/-- C1 is false as stated: on `c1rows` with `window_size = 3` the engine
returns the periods `(start 0, end 6)` and `(start 3, end 9)` for
`"BTC"` — the second period starts strictly before the first one ends,
because the overlap suppression compares the scan index `i` (not the
emitted `start_idx = i - W`) with the previous `end_idx`.  The final
conjuncts certify that the square-root table is the exact nonnegative
square root at every value whose root the engine's decisions depend on
(and nonnegative everywhere it is applied in this run). -/
theorem c1_overlap_counterexample :
    ((List.lookup "BTC" (get_divergence_periods sq_c1 3 c1rows)).getD []).map
        (fun p => (p.start_idx, p.end_idx)) = [(0, 6), (3, 9)] ∧
    ¬ List.Chain' (fun p q => p.end_idx ≤ q.start_idx)
        ((List.lookup "BTC" (get_divergence_periods sq_c1 3 c1rows)).getD []) ∧
    sq_c1 36 ^ 2 = 36 ∧ sq_c1 (1 / 36) ^ 2 = 1 / 36 ∧ sq_c1 100 ^ 2 = 100 ∧
    sq_c1 1 ^ 2 = 1 ∧ 0 ≤ sq_c1 36 ∧ 0 ≤ sq_c1 (1 / 36) ∧ 0 ≤ sq_c1 100 ∧
    0 ≤ sq_c1 1 ∧ 0 ≤ sq_c1 (73 / 108) ∧ 0 ≤ sq_c1 28 := by
  have hlookup : (List.lookup "BTC" (get_divergence_periods sq_c1 3 c1rows)).getD []
      = symbol_periods sq_c1 3 c1rows "BTC" := by
    rw [c1_dict]
    simp [List.lookup]
  refine ⟨?_, ?_, by norm_num [sq_c1], by norm_num [sq_c1], by norm_num [sq_c1],
    by norm_num [sq_c1], by norm_num [sq_c1], by norm_num [sq_c1],
    by norm_num [sq_c1], by norm_num [sq_c1], by norm_num [sq_c1],
    by norm_num [sq_c1]⟩
  · rw [hlookup, c1_symbol_periods]
    simp [mk_period, c1_end3, c1_end6]
  · rw [hlookup, c1_symbol_periods]
    intro h
    have hrel := (List.chain'_cons.1 h).1
    rw [c1_mk3_end] at hrel
    have hstart : (mk_period sq_c1 3 c1z c1p c1ts 10 6).start_idx = 3 := rfl
    rw [hstart] at hrel
    omega

/-- Witness for `c1_period_invariant_amended` at the concrete engine run
of the counterexample dataset. -/
theorem c1_period_invariant_witness :
    (("BTC", symbol_periods sq_c1 3 c1rows "BTC") ∈
      get_divergence_periods sq_c1 3 c1rows) ∧
    ((∀ p ∈ symbol_periods sq_c1 3 c1rows "BTC", p.start_idx < p.end_idx) ∧
     List.Chain' (fun p q => p.start_idx < q.start_idx)
       (symbol_periods sq_c1 3 c1rows "BTC") ∧
     List.Chain' (fun p q => p.end_idx ≤ q.start_idx + 3)
       (symbol_periods sq_c1 3 c1rows "BTC")) := by
  have hmem : ("BTC", symbol_periods sq_c1 3 c1rows "BTC") ∈
      get_divergence_periods sq_c1 3 c1rows := by
    rw [c1_dict]
    exact List.mem_singleton.2 rfl
  exact ⟨hmem, c1_period_invariant_amended sq_c1 3 c1rows _ hmem⟩

lemma mem_detect_divergences (sq : ℚ → ℚ) (W : ℕ) (df : List Obs) (s : String) :
    s ∈ detect_divergences sq W df ↔
      s ∈ unique_first (df.map Obs.symbol) ∧ symbol_periods sq W df s ≠ [] := by
  unfold detect_divergences py_set_list
  rw [List.mem_dedup, List.mem_filter]
  simp [List.isEmpty_iff]

lemma lookup_filterMap_periods (g : String → List DivPeriod) (s : String) :
    ∀ l : List String,
      (l.filterMap (fun s2 =>
        if (g s2).isEmpty then none else some (s2, g s2))).lookup s =
      if s ∈ l ∧ g s ≠ [] then some (g s) else none := by
  intro l
  induction l with
  | nil => simp
  | cons a t ih =>
      by_cases hsa : s = a
      · subst hsa
        by_cases hga : (g s).isEmpty
        · have hg : g s = [] := List.isEmpty_iff.1 hga
          simp [List.filterMap_cons, hg, ih]
          intro a0 b0 x hxt hgx hxa hgb hs
          exact hgx (by rw [hxa, ← hs]; exact hg)
        · have hne : g s ≠ [] := by simpa [List.isEmpty_iff] using hga
          simp [List.filterMap_cons, hne, List.lookup]
      · have hbeq : (s == a) = false := beq_eq_false_iff_ne.2 hsa
        by_cases hga : (g a).isEmpty
        · have hg : g a = [] := List.isEmpty_iff.1 hga
          simp [List.filterMap_cons, hg, List.mem_cons, hsa]
          simpa using ih
        · have hne : g a ≠ [] := by simpa [List.isEmpty_iff] using hga
          simp [List.filterMap_cons, hne, List.lookup, hbeq, List.mem_cons, hsa]
          simpa using ih

lemma lookup_get_divergence_periods (sq : ℚ → ℚ) (W : ℕ) (df : List Obs) (s : String) :
    (get_divergence_periods sq W df).lookup s =
      if s ∈ unique_first (df.map Obs.symbol) ∧ symbol_periods sq W df s ≠ []
      then some (symbol_periods sq W df s) else none := by
  unfold get_divergence_periods
  exact lookup_filterMap_periods (symbol_periods sq W df) s _

lemma detect_divergence_periods_of_scan_nil (sq : ℚ → ℚ) (W : ℕ) (zs ps : List F)
    (ts : List ℚ) (h : scan_range W ts.length = []) :
    detect_divergence_periods sq W zs ps ts = [] := by
  unfold detect_divergence_periods
  rw [h]
  rfl

/-- C2, amended.  A series of length `2W - 1` is skipped by the length
guard; a series of length exactly `2W` is *not* skipped but the sliding
scan `range(W, N - W)` is empty, so zero window positions are evaluated
and no period can be produced; the first length at which exactly one
window position is evaluated is `2W + 1`. -/
theorem c2_boundary_amended (sq : ℚ → ℚ) (W : ℕ) (df : List Obs) (s : String)
    (hW : 1 ≤ W) :
    ((symbol_rows df s).length = 2 * W - 1 →
       symbol_skipped W df s ∧ s ∉ detect_divergences sq W df ∧
       (get_divergence_periods sq W df).lookup s = none) ∧
    ((symbol_rows df s).length = 2 * W →
       ¬ symbol_skipped W df s ∧ scan_range W (symbol_rows df s).length = [] ∧
       symbol_periods sq W df s = [] ∧ s ∉ detect_divergences sq W df ∧
       (get_divergence_periods sq W df).lookup s = none) ∧
    (scan_range W (2 * W + 1)).length = 1 := by
  refine ⟨?_, ?_, ?_⟩
  · intro hlen
    have hskip : symbol_skipped W df s := by
      unfold symbol_skipped
      omega
    have hper : symbol_periods sq W df s = [] := by
      unfold symbol_periods
      dsimp only
      rw [if_pos (show (symbol_rows df s).length < 2 * W by omega)]
    refine ⟨hskip, ?_, ?_⟩
    · rw [mem_detect_divergences]
      rintro ⟨_, hne⟩
      exact hne hper
    · rw [lookup_get_divergence_periods, if_neg]
      rintro ⟨_, hne⟩
      exact hne hper
  · intro hlen
    have hnskip : ¬ symbol_skipped W df s := by
      unfold symbol_skipped
      omega
    have hscan : scan_range W (symbol_rows df s).length = [] := by
      unfold scan_range
      rw [hlen]
      have : 2 * W - W - W = 0 := by omega
      rw [this, List.range'_zero]
    have hper : symbol_periods sq W df s = [] := by
      unfold symbol_periods
      dsimp only
      rw [if_neg (show ¬ (symbol_rows df s).length < 2 * W by omega)]
      refine detect_divergence_periods_of_scan_nil sq W _ _ _ ?_
      rw [List.length_map, hlen]
      unfold scan_range
      have : 2 * W - W - W = 0 := by omega
      rw [this, List.range'_zero]
    refine ⟨hnskip, hscan, hper, ?_, ?_⟩
    · rw [mem_detect_divergences]
      rintro ⟨_, hne⟩
      exact hne hper
    · rw [lookup_get_divergence_periods, if_neg]
      rintro ⟨_, hne⟩
      exact hne hper
  · unfold scan_range
    have : 2 * W + 1 - W - W = 1 := by omega
    rw [this, List.length_range']

/-- C2 is false as stated on a series of length exactly `2W`: with
`W = 3` and six rows, the engine does not skip the symbol, but the scan
evaluates zero (not one) window positions and nothing is detected. -/
theorem c2_boundary_counterexample :
    (symbol_rows c2rows "A").length = 2 * 3 ∧
    (scan_range 3 (symbol_rows c2rows "A").length).length = 0 ∧
    ¬ (scan_range 3 (symbol_rows c2rows "A").length).length = 1 ∧
    symbol_periods sq_id 3 c2rows "A" = [] ∧
    detect_divergences sq_id 3 c2rows = [] := by
  refine ⟨by decide, by decide, by decide, by decide, by decide⟩

/-- Witness for `c2_boundary_amended` at the six-row dataset. -/
theorem c2_boundary_witness :
    1 ≤ 3 ∧
    (¬ symbol_skipped 3 c2rows "A" ∧
     scan_range 3 (symbol_rows c2rows "A").length = [] ∧
     symbol_periods sq_id 3 c2rows "A" = [] ∧
     "A" ∉ detect_divergences sq_id 3 c2rows ∧
     (get_divergence_periods sq_id 3 c2rows).lookup "A" = none) :=
  ⟨by norm_num,
   (c2_boundary_amended sq_id 3 c2rows "A" (by norm_num)).2.1 (by decide)⟩

/-- C9: the list returned by `detect_divergences` and the dict returned
by `get_divergence_periods` agree exactly: a symbol is in the list iff
it is a key of the dict, every stored list is the (non-empty) period
list of that symbol, and membership is exactly "appears in the dataset
with at least one accepted period"; symbols with no accepted period are
absent from the dict rather than mapped to an empty list. -/
theorem c9_detect_periods_agreement (sq : ℚ → ℚ) (W : ℕ) (df : List Obs) :
    (∀ s, s ∈ detect_divergences sq W df ↔
        ∃ l, (get_divergence_periods sq W df).lookup s = some l) ∧
    (∀ s l, (get_divergence_periods sq W df).lookup s = some l →
        l = symbol_periods sq W df s ∧ l ≠ []) ∧
    (∀ s, s ∈ detect_divergences sq W df ↔
        s ∈ df.map Obs.symbol ∧ symbol_periods sq W df s ≠ []) := by
  refine ⟨?_, ?_, ?_⟩
  · intro s
    rw [mem_detect_divergences, lookup_get_divergence_periods]
    by_cases h : s ∈ unique_first (df.map Obs.symbol) ∧ symbol_periods sq W df s ≠ []
    · rw [if_pos h]
      exact ⟨fun _ => ⟨_, rfl⟩, fun _ => h⟩
    · rw [if_neg h]
      exact ⟨fun hc => absurd hc h, by rintro ⟨l, hl⟩; exact absurd hl (by simp)⟩
  · intro s l hl
    rw [lookup_get_divergence_periods] at hl
    by_cases h : s ∈ unique_first (df.map Obs.symbol) ∧ symbol_periods sq W df s ≠ []
    · rw [if_pos h] at hl
      cases hl
      exact ⟨rfl, h.2⟩
    · rw [if_neg h] at hl
      exact absurd hl (by simp)
  · intro s
    rw [mem_detect_divergences, mem_unique_first]

/-- C5: for any scan index `i` over a series of length `N`, the
boundary-extension search examines `j = i + 5` upwards with
`j < min(i + W, N)`, recomputing the normalized window trends at each
`j` (`divergence_fade` is exactly that recomputation), and returns the
first `j` at which the trends are no longer of opposite sign or either
magnitude drops below the fade threshold; if no such `j` exists in the
range, it returns `min(i + W, N)`. -/
theorem c5_boundary_extension (sq : ℚ → ℚ) (W : ℕ) (zs ps : List F) (N i : ℕ) :
    (i + 5 ≤ find_divergence_end sq W zs ps N i ∧
     find_divergence_end sq W zs ps N i < min (i + W) N ∧
     divergence_fade sq W zs ps (find_divergence_end sq W zs ps N i) = true ∧
     (∀ j, i + 5 ≤ j → j < find_divergence_end sq W zs ps N i →
        divergence_fade sq W zs ps j = false)) ∨
    (find_divergence_end sq W zs ps N i = min (i + W) N ∧
     ∀ j, i + 5 ≤ j → j < min (i + W) N →
        divergence_fade sq W zs ps j = false) := by
  unfold find_divergence_end
  cases hfind : (List.range' (i + 5) (min (i + W) N - (i + 5))).find?
      (fun j => divergence_fade sq W zs ps j) with
  | none =>
      refine Or.inr ⟨rfl, ?_⟩
      intro j hj1 hj2
      have hmem : j ∈ List.range' (i + 5) (min (i + W) N - (i + 5)) := by
        rw [List.mem_range'_1]
        omega
      have := List.find?_eq_none.1 hfind j hmem
      exact Bool.not_eq_true _ ▸ Bool.eq_false_iff.2 this
  | some j =>
      dsimp only
      obtain ⟨hmem, hfade, hmin⟩ :=
        find_first_sorted (List.range' (i + 5) (min (i + W) N - (i + 5)))
          (List.pairwise_lt_range' _ _) j hfind
      rw [List.mem_range'_1] at hmem
      refine Or.inl ⟨by omega, by omega, hfade, ?_⟩
      intro k hk1 hk2
      have hkmem : k ∈ List.range' (i + 5) (min (i + W) N - (i + 5)) := by
        rw [List.mem_range'_1]
        omega
      exact hmin k hkmem hk2

lemma foldl_div_step_complete (sq : ℚ → ℚ) (W : ℕ) (zs ps : List F) (ts : List ℚ) (N : ℕ) :
    ∀ (is : List ℕ) (acc : List DivPeriod),
      is.Pairwise (· < ·) → (∀ i ∈ is, W ≤ i) →
      (∀ p ∈ acc, ∀ i ∈ is, p.start_idx + W < i) →
      ∀ i ∈ is, divergence_cond sq W zs ps i = true →
        (∃ p ∈ is.foldl (div_step sq W zs ps ts N) acc, p.start_idx = i - W) ∨
        (∃ p ∈ is.foldl (div_step sq W zs ps ts N) acc,
          p.start_idx + W < i ∧ i < p.end_idx) := by
  intro is
  induction is with
  | nil => intro acc _ _ _ i hi; simp at hi
  | cons a rest ih =>
      intro acc hpw hWle hacc i hi hcond
      rcases List.mem_cons.1 hi with rfl | hi2
      · rw [List.foldl_cons]
        unfold div_step
        rw [if_pos hcond]
        cases hl : acc.getLast? with
        | none =>
            left
            refine ⟨mk_period sq W zs ps ts N i,
              mem_foldl_div_step sq W zs ps ts N rest _
                (List.mem_append_right _ (List.mem_singleton_self _)), rfl⟩
        | some lp =>
            dsimp only
            by_cases hlt : i < lp.end_idx
            · rw [if_pos hlt]
              right
              have hlpacc : lp ∈ acc := getLast?_mem_list hl
              exact ⟨lp, mem_foldl_div_step sq W zs ps ts N rest _ hlpacc,
                hacc lp hlpacc i (List.mem_cons_self _ _), hlt⟩
            · rw [if_neg hlt]
              left
              refine ⟨mk_period sq W zs ps ts N i,
                mem_foldl_div_step sq W zs ps ts N rest _
                  (List.mem_append_right _ (List.mem_singleton_self _)), rfl⟩
      · rw [List.foldl_cons]
        refine ih (div_step sq W zs ps ts N acc a) hpw.of_cons
          (fun j hj => hWle j (List.mem_cons_of_mem _ hj)) ?_ i hi2 hcond
        intro p hp j hj
        rcases div_step_cases sq W zs ps ts N acc a hp with hpacc | ⟨_, rfl⟩
        · exact hacc p hpacc j (List.mem_cons_of_mem _ hj)
        · have hWa : W ≤ a := hWle a (List.mem_cons_self _ _)
          have haj : a < j := List.rel_of_pairwise_cons hpw hj
          simp only [mk_period]
          omega

/-- C4: a period is emitted exactly for the non-suppressed scan indices
whose window satisfies the trigger.  Soundness: every emitted period
arises at a scan index `i` whose window trigger holds, with
`start_idx = i - W`, the normalized trends as its trend fields,
`strength = min(|cvd_trend_norm|, |price_trend_norm|)` and the
boundary-extension end.  Completeness: every in-range scan index whose
trigger holds is either emitted (as `start_idx = i - W`) or
overlap-suppressed by an emitted period with earlier scan index and
`end_idx > i`.  The last conjunct spells the trigger out as the three
threshold comparisons of the specification. -/
theorem c4_trigger_characterization (sq : ℚ → ℚ) (W : ℕ) (zs ps : List F) (ts : List ℚ) :
    (∀ p ∈ detect_divergence_periods sq W zs ps ts,
      ∃ i ∈ scan_range W ts.length,
        divergence_cond sq W zs ps i = true ∧
        p.start_idx = i - W ∧
        p.cvd_trend = (norm_trends sq W zs ps i).1 ∧
        p.price_trend = (norm_trends sq W zs ps i).2 ∧
        p.strength = fmin (fabs (norm_trends sq W zs ps i).1)
          (fabs (norm_trends sq W zs ps i).2) ∧
        p.end_idx = find_divergence_end sq W zs ps ts.length i) ∧
    (∀ i ∈ scan_range W ts.length, divergence_cond sq W zs ps i = true →
      (∃ p ∈ detect_divergence_periods sq W zs ps ts, p.start_idx = i - W) ∨
      (∃ p ∈ detect_divergence_periods sq W zs ps ts,
        p.start_idx + W < i ∧ i < p.end_idx)) ∧
    (∀ i, divergence_cond sq W zs ps i = true ↔
      (fgtB (fabs (norm_trends sq W zs ps i).1) (some thr_sig) = true ∧
       fgtB (fabs (norm_trends sq W zs ps i).2) (some thr_sig) = true ∧
       fltB (fmul (norm_trends sq W zs ps i).1 (norm_trends sq W zs ps i).2)
         (some 0) = true)) := by
  refine ⟨?_, ?_, ?_⟩
  · intro p hp
    rcases foldl_div_step_sound sq W zs ps ts ts.length _ [] p hp with h | ⟨i, hi, hc, rfl⟩
    · simp at h
    · exact ⟨i, hi, hc, rfl, rfl, rfl, rfl, rfl⟩
  · intro i hi hc
    exact foldl_div_step_complete sq W zs ps ts ts.length _ []
      (List.pairwise_lt_range' _ _) (fun j hj => (mem_scan_range hj).1)
      (by simp) i hi hc
  · intro i
    simp [divergence_cond, Bool.and_eq_true, and_assoc]

/-- Witness for `c4_trigger_characterization`: the first period of the
concrete run on `c1z`/`c1p` is characterized by its scan index 3. -/
theorem c4_trigger_witness :
    (mk_period sq_c1 3 c1z c1p c1ts 10 3 ∈
      detect_divergence_periods sq_c1 3 c1z c1p c1ts) ∧
    (∃ i ∈ scan_range 3 c1ts.length,
      divergence_cond sq_c1 3 c1z c1p i = true ∧
      (mk_period sq_c1 3 c1z c1p c1ts 10 3).start_idx = i - 3 ∧
      (mk_period sq_c1 3 c1z c1p c1ts 10 3).cvd_trend =
        (norm_trends sq_c1 3 c1z c1p i).1 ∧
      (mk_period sq_c1 3 c1z c1p c1ts 10 3).price_trend =
        (norm_trends sq_c1 3 c1z c1p i).2 ∧
      (mk_period sq_c1 3 c1z c1p c1ts 10 3).strength =
        fmin (fabs (norm_trends sq_c1 3 c1z c1p i).1)
          (fabs (norm_trends sq_c1 3 c1z c1p i).2) ∧
      (mk_period sq_c1 3 c1z c1p c1ts 10 3).end_idx =
        find_divergence_end sq_c1 3 c1z c1p c1ts.length i) := by
  have hmem : mk_period sq_c1 3 c1z c1p c1ts 10 3 ∈
      detect_divergence_periods sq_c1 3 c1z c1p c1ts := by
    rw [c1_detect_eval]
    exact List.mem_cons_self _ _
  exact ⟨hmem, (c4_trigger_characterization sq_c1 3 c1z c1p c1ts).1 _ hmem⟩

/-- C8: the normalizer returns a series of the input's length; on an
empty input or one whose (sample) standard deviation is zero it returns
all zeros, and otherwise each entry is `(x - mean) / std` over the
whole series. -/
theorem c8_zscore_contract (sq : ℚ → ℚ) (xs : List ℚ) :
    (calculate_z_score sq xs).length = xs.length ∧
    ((xs = [] ∨ fstd sq (xs.map some) = some 0) →
      calculate_z_score sq xs = List.replicate xs.length (some 0)) ∧
    (¬ (xs = [] ∨ fstd sq (xs.map some) = some 0) →
      ∀ k, k < xs.length →
        (calculate_z_score sq xs).getD k none =
          fdiv (some (xs.getD k 0 - qmean xs)) (fstd sq (xs.map some))) := by
  refine ⟨?_, ?_, ?_⟩
  · unfold calculate_z_score
    by_cases h : xs.length = 0 ∨ fstd sq (xs.map some) = some 0
    · rw [if_pos h]; simp
    · rw [if_neg h]; simp
  · intro h
    have h' : xs.length = 0 ∨ fstd sq (xs.map some) = some 0 := by
      rcases h with h | h
      · left; simp [h]
      · right; exact h
    unfold calculate_z_score
    rw [if_pos h']
  · intro h k hk
    have h' : ¬ (xs.length = 0 ∨ fstd sq (xs.map some) = some 0) := by
      intro hc
      apply h
      rcases hc with hc | hc
      · left; exact List.length_eq_zero.1 hc
      · right; exact hc
    unfold calculate_z_score
    rw [if_neg h']
    simp [List.getD_eq_getElem?_getD, List.getElem?_map, List.getElem?_eq_getElem, hk]

/-- Witness for `c8_zscore_contract`: both branches discharged on
concrete series. -/
theorem c8_zscore_witness :
    calculate_z_score sq_id [] = List.replicate ([] : List ℚ).length (some 0) ∧
    (calculate_z_score sq_id [0, 1]).getD 0 none =
      fdiv (some (([0, 1] : List ℚ).getD 0 0 - qmean [0, 1]))
        (fstd sq_id ([0, 1].map some)) := by
  constructor
  · exact (c8_zscore_contract sq_id []).2.1 (Or.inl rfl)
  · refine (c8_zscore_contract sq_id [0, 1]).2.2 ?_ 0 (by norm_num)
    rintro (h | h)
    · simp at h
    · rw [show fstd sq_id ([0, 1].map some) = some (1 / 2) by
        norm_num [fstd, fvalid, List.filterMap, svar, qmean, qsum, sq_id]] at h
      simp at h

/-- C10: on a one-point series the degenerate guard does not fire — the
sample standard deviation is `NaN`, not 0 — so the output is the
(non-zero) `NaN` series; the all-zero degenerate output is guaranteed
for length 0 and for series of length ≥ 2 with zero variance. -/
theorem c10_single_point_guard (sq : ℚ → ℚ) (hsq0 : sq 0 = 0) :
    (∀ x : ℚ, calculate_z_score sq [x] = [none] ∧
       calculate_z_score sq [x] ≠ [some 0] ∧
       ¬ ([x] = ([] : List ℚ) ∨ fstd sq [some x] = some 0)) ∧
    calculate_z_score sq ([] : List ℚ) = [] ∧
    (∀ xs : List ℚ, 2 ≤ xs.length → svar xs = 0 →
       calculate_z_score sq xs = List.replicate xs.length (some 0)) := by
  refine ⟨?_, rfl, ?_⟩
  · intro x
    have hstd : fstd sq [some x] = none := rfl
    have hout : calculate_z_score sq [x] = [none] := by
      unfold calculate_z_score
      rw [if_neg]
      · simp [hstd, fdiv]
      · rintro (h | h)
        · simp at h
        · rw [show ([x].map some) = [some x] from rfl, hstd] at h
          simp at h
    refine ⟨hout, by rw [hout]; simp, ?_⟩
    rintro (h | h)
    · simp at h
    · rw [hstd] at h
      simp at h
  · intro xs h2 hvar
    have hstd : fstd sq (xs.map some) = some 0 := by
      unfold fstd
      rw [fvalid_map_some, if_neg (by omega), hvar, hsq0]
    unfold calculate_z_score
    rw [if_pos (Or.inr hstd)]

/-- Witness for `c10_single_point_guard` at the identity square root
and the one-point series `[5]`. -/
theorem c10_single_point_witness :
    sq_id 0 = 0 ∧ calculate_z_score sq_id [5] = [none] ∧
    calculate_z_score sq_id [5] ≠ [some 0] :=
  ⟨rfl, ((c10_single_point_guard sq_id rfl).1 5).1,
    ((c10_single_point_guard sq_id rfl).1 5).2.1⟩

lemma symbol_rows_length_le (df : List Obs) (s : String) :
    (symbol_rows df s).length ≤ df.length := by
  unfold symbol_rows sort_by_timestamp
  rw [(List.perm_insertionSort ts_le _).length_eq]
  exact List.length_filter_le _ _

lemma symbol_periods_eq_nil_of_le (sq : ℚ → ℚ) (W : ℕ) (df : List Obs) (s : String)
    (h : (symbol_rows df s).length ≤ 2 * W) :
    symbol_periods sq W df s = [] := by
  unfold symbol_periods
  dsimp only
  by_cases hlt : (symbol_rows df s).length < 2 * W
  · rw [if_pos hlt]
  · rw [if_neg hlt]
    apply detect_divergence_periods_of_scan_nil
    rw [List.length_map]
    unfold scan_range
    have h0 : (symbol_rows df s).length - W - W = 0 := by omega
    rw [h0, List.range'_zero]

lemma detect_step_short (sq : ℚ → ℚ) (W : ℕ) (df : PdFrame)
    (hts : "timestamp" ∈ df.cols) (hcvd : "cvd" ∈ df.cols)
    (acc : List String) (s : String)
    (hshort : (symbol_rows df.rows s).length ≤ 2 * W) :
    detect_step sq W df acc s = Except.ok acc := by
  unfold detect_step
  rw [show get_col df "timestamp" = pure () from by rw [get_col, if_pos hts]; rfl]
  rw [pure_bind]
  dsimp only
  by_cases hlt : (symbol_rows df.rows s).length < 2 * W
  · rw [if_pos hlt]
    rfl
  · rw [if_neg hlt]
    rw [show get_col df "cvd" = pure () from by rw [get_col, if_pos hcvd]; rfl]
    rw [pure_bind]
    have hscan : (scan_range W (symbol_rows df.rows s).length).isEmpty = true := by
      unfold scan_range
      have h0 : (symbol_rows df.rows s).length - W - W = 0 := by omega
      rw [h0, List.range'_zero]
      rfl
    rw [if_pos hscan]
    rw [symbol_periods_eq_nil_of_le sq W df.rows s hshort]
    rfl

/-- C3, amended.  The engine performs no schema validation at all: a
dataset whose per-symbol series are all at most `2W` long runs to a
successful empty result even when the `price` column (or any column
other than `symbol`, `timestamp`, `cvd`) is missing — no error of any
kind is raised, let alone a `SchemaError` before the loop.  Only a
missing `symbol` column errors before the per-symbol loop, and as a
pandas `KeyError`, not a `SchemaError`. -/
theorem c3_schema_amended (sq : ℚ → ℚ) (W : ℕ) (df : PdFrame)
    (hsym : "symbol" ∈ df.cols) (hts : "timestamp" ∈ df.cols)
    (hcvd : "cvd" ∈ df.cols)
    (hshort : ∀ s, (symbol_rows df.rows s).length ≤ 2 * W) :
    detect_divergencesE sq W df = Except.ok [] ∧
    (∀ df2 : PdFrame, "symbol" ∉ df2.cols →
      detect_divergencesE sq W df2 = Except.error (PyExc.keyError "symbol")) := by
  constructor
  · unfold detect_divergencesE
    rw [show get_col df "symbol" = pure () from by rw [get_col, if_pos hsym]; rfl]
    rw [pure_bind]
    have hfold : ∀ (l : List String) (acc : List String),
        l.foldlM (detect_step sq W df) acc = Except.ok acc := by
      intro l
      induction l with
      | nil => intro acc; rfl
      | cons a t ih =>
          intro acc
          rw [List.foldlM_cons, detect_step_short sq W df hts hcvd acc a (hshort a)]
          rw [show (Except.ok acc : Except PyExc (List String)) = pure acc from rfl]
          rw [pure_bind]
          exact ih acc
    rw [hfold]
    rfl
  · intro df2 h2
    unfold detect_divergencesE
    rw [show get_col df2 "symbol" =
      Except.error (PyExc.keyError "symbol") from by rw [get_col, if_neg h2]]
    rfl

/-- C3 is false as stated: this dataframe is missing the required
`price` column, yet the engine returns successfully (no error at all,
and in particular no schema error before the per-symbol loop). -/
theorem c3_schema_counterexample :
    "price" ∉ c3frame.cols ∧
    detect_divergencesE sq_id 30 c3frame = Except.ok [] := by
  refine ⟨by decide, by rfl⟩

/-- Witness for `c3_schema_amended` at the one-row no-`price` frame. -/
theorem c3_schema_witness :
    ("symbol" ∈ c3frame.cols ∧ "timestamp" ∈ c3frame.cols ∧
     "cvd" ∈ c3frame.cols ∧
     ∀ s, (symbol_rows c3frame.rows s).length ≤ 2 * 30) ∧
    detect_divergencesE sq_id 30 c3frame = Except.ok [] ∧
    (∀ df2 : PdFrame, "symbol" ∉ df2.cols →
      detect_divergencesE sq_id 30 df2 = Except.error (PyExc.keyError "symbol")) := by
  have hshort : ∀ s, (symbol_rows c3frame.rows s).length ≤ 2 * 30 := fun s =>
    le_trans (symbol_rows_length_le c3frame.rows s) (by decide)
  have h := c3_schema_amended sq_id 30 c3frame (by decide) (by decide) (by decide)
    hshort
  exact ⟨⟨by decide, by decide, by decide, hshort⟩, h.1, h.2⟩

/-- C6, amended.  The column-existence check runs first: a metric whose
column is absent fails with the missing-column `ValueError` (whatever
the metric name); only a metric that is present as a column but outside
the allow-list reaches the unsupported-metric `ValueError`, whose
message names the offending value but does not enumerate the valid
set. -/
theorem c6_metric_errors_amended (df : PdFrame) (metric : String) :
    (metric ∉ df.cols →
      calculate_rankings df metric =
        Except.error (PyExc.valueError ("指标 " ++ metric ++ " 不存在于数据中"))) ∧
    (metric ∈ df.cols → metric ∉ valid_metrics →
      calculate_rankings df metric =
        Except.error (PyExc.valueError ("不支持的排名指标: " ++ metric))) := by
  constructor
  · intro h
    unfold calculate_rankings
    rw [if_pos h]
  · intro hin hval
    unfold calculate_rankings
    rw [if_neg (not_not.2 hin)]
    have h1 : ¬ metric = "period_volume" := by
      intro h
      exact hval (by rw [h]; simp [valid_metrics])
    have h2 : ¬ metric = "trade_count" := by
      intro h
      exact hval (by rw [h]; simp [valid_metrics])
    have h3 : ¬ metric = "cvd" := by
      intro h
      exact hval (by rw [h]; simp [valid_metrics])
    rw [if_neg h1, if_neg h2, if_neg h3]

/-- C6 is false as stated: the metric `"foo"` is outside the enumerated
set, yet the ranking operation fails with the missing-column
`ValueError` (the column check precedes the metric check), not an
invalid-metric error; and neither error message enumerates the valid
metric set (`"period_volume"`/`"trade_count"` do not occur in them). -/
theorem c6_metric_errors_counterexample :
    "foo" ∉ valid_metrics ∧
    calculate_rankings c6frame "foo" =
      Except.error (PyExc.valueError ("指标 " ++ "foo" ++ " 不存在于数据中")) ∧
    ("指标 " ++ "foo" ++ " 不存在于数据中") ≠ ("不支持的排名指标: " ++ "foo") ∧
    contains_seq "period_volume".toList
      ("指标 " ++ "foo" ++ " 不存在于数据中").toList = false ∧
    calculate_rankings c6frame "price" =
      Except.error (PyExc.valueError ("不支持的排名指标: " ++ "price")) ∧
    contains_seq "trade_count".toList
      ("不支持的排名指标: " ++ "price").toList = false := by
  exact ⟨by decide, by rfl, by decide, by decide, by rfl, by decide⟩

/-- Witness for `c6_metric_errors_amended` at the standard one-row
frame, once for an absent column and once for a present non-metric
column. -/
theorem c6_metric_errors_witness :
    ("foo" ∉ c6frame.cols ∧
      calculate_rankings c6frame "foo" =
        Except.error (PyExc.valueError ("指标 " ++ "foo" ++ " 不存在于数据中"))) ∧
    ("price" ∈ c6frame.cols ∧ "price" ∉ valid_metrics ∧
      calculate_rankings c6frame "price" =
        Except.error (PyExc.valueError ("不支持的排名指标: " ++ "price"))) :=
  ⟨⟨by decide, (c6_metric_errors_amended c6frame "foo").1 (by decide)⟩,
   ⟨by decide, by decide,
    (c6_metric_errors_amended c6frame "price").2 (by decide) (by decide)⟩⟩

lemma tail_one_subset : ∀ (l : List Obs) (r : Obs), r ∈ tail_one l → r ∈ l := by
  intro l
  induction l with
  | nil => intro r hr; simp [tail_one] at hr
  | cons a t ih =>
      intro r hr
      unfold tail_one at hr
      by_cases h : t.any (fun r2 => decide (r2.symbol = a.symbol))
      · rw [if_pos h] at hr
        exact List.mem_cons_of_mem _ (ih r hr)
      · rw [if_neg h] at hr
        rcases List.mem_cons.1 hr with rfl | hr
        · exact List.mem_cons_self _ _
        · exact List.mem_cons_of_mem _ (ih r hr)

lemma tail_one_latest : ∀ l : List Obs, List.Pairwise ts_le l →
    ∀ r ∈ tail_one l, ∀ r2 ∈ l, r2.symbol = r.symbol →
      r2.timestamp ≤ r.timestamp := by
  intro l
  induction l with
  | nil => intro _ r hr; simp [tail_one] at hr
  | cons a t ih =>
      intro hp r hr r2 hr2 hsymb
      have ha : ∀ b ∈ t, ts_le a b := fun b hb => List.rel_of_pairwise_cons hp hb
      unfold tail_one at hr
      by_cases h : t.any (fun r2 => decide (r2.symbol = a.symbol))
      · rw [if_pos h] at hr
        rcases List.mem_cons.1 hr2 with heq | hr2
        · rw [heq]
          exact ha r (tail_one_subset t r hr)
        · exact ih hp.of_cons r hr r2 hr2 hsymb
      · rw [if_neg h] at hr
        have hnone : ∀ b ∈ t, b.symbol ≠ a.symbol := by
          intro b hb
          have := List.any_eq_false.1 (Bool.eq_false_iff.2 h) b hb
          simpa using this
        rcases List.mem_cons.1 hr with heq0 | hr
        · rcases List.mem_cons.1 hr2 with heq | hr2
          · rw [heq, heq0]
          · rw [heq0] at hsymb
            exact absurd hsymb (hnone r2 hr2)
        · rcases List.mem_cons.1 hr2 with heq | hr2
          · rw [heq]
            exact ha r (tail_one_subset t r hr)
          · exact ih hp.of_cons r hr r2 hr2 hsymb

lemma tail_one_symbols_nodup : ∀ l : List Obs, ((tail_one l).map Obs.symbol).Nodup := by
  intro l
  induction l with
  | nil => simp [tail_one]
  | cons a t ih =>
      unfold tail_one
      by_cases h : t.any (fun r2 => decide (r2.symbol = a.symbol))
      · rw [if_pos h]
        exact ih
      · rw [if_neg h]
        rw [List.map_cons]
        refine List.nodup_cons.2 ⟨?_, ih⟩
        intro hmem
        obtain ⟨r, hr, hrs⟩ := List.mem_map.1 hmem
        have hrt : r ∈ t := tail_one_subset t r hr
        have := List.any_eq_false.1 (Bool.eq_false_iff.2 h) r hrt
        simp at this
        exact this hrs

lemma tail_one_symbols_mem : ∀ (l : List Obs) (s : String),
    s ∈ (tail_one l).map Obs.symbol ↔ s ∈ l.map Obs.symbol := by
  intro l
  induction l with
  | nil => simp [tail_one]
  | cons a t ih =>
      intro s
      unfold tail_one
      by_cases h : t.any (fun r2 => decide (r2.symbol = a.symbol))
      · rw [if_pos h]
        obtain ⟨r2, hr2, hr2s⟩ : ∃ r2 ∈ t, r2.symbol = a.symbol := by
          obtain ⟨r2, hr2, hdec⟩ := List.any_eq_true.1 h
          exact ⟨r2, hr2, of_decide_eq_true hdec⟩
        rw [ih, List.map_cons]
        constructor
        · exact fun hs => List.mem_cons_of_mem _ hs
        · intro hs
          rcases List.mem_cons.1 hs with rfl | hs
          · exact hr2s ▸ List.mem_map_of_mem Obs.symbol hr2
          · exact hs
      · rw [if_neg h, List.map_cons, List.map_cons]
        rw [List.mem_cons, List.mem_cons, ih]

lemma with_ranks_length (get : Obs → ℚ) : ∀ (k : ℕ) (l : List Obs),
    (with_ranks get k l).length = l.length := by
  intro k l
  induction l generalizing k with
  | nil => rfl
  | cons r t ih => simp [with_ranks, ih]

lemma with_ranks_map_rank (get : Obs → ℚ) : ∀ (l : List Obs) (k : ℕ),
    (with_ranks get k l).map RankedRow.rank = List.range' k l.length := by
  intro l
  induction l with
  | nil => intro k; rfl
  | cons r t ih =>
      intro k
      simp only [with_ranks, List.map_cons, List.length_cons, List.range'_succ]
      rw [ih (k + 1)]

lemma with_ranks_map_symbol (get : Obs → ℚ) : ∀ (k : ℕ) (l : List Obs),
    (with_ranks get k l).map RankedRow.symbol = l.map Obs.symbol := by
  intro k l
  induction l generalizing k with
  | nil => rfl
  | cons r t ih => simp [with_ranks, ih]

lemma with_ranks_mem (get : Obs → ℚ) : ∀ (k : ℕ) (l : List Obs) (rr : RankedRow),
    rr ∈ with_ranks get k l → ∃ r ∈ l, rr.symbol = r.symbol ∧ rr.value = get r := by
  intro k l
  induction l generalizing k with
  | nil => intro rr hrr; simp [with_ranks] at hrr
  | cons r t ih =>
      intro rr hrr
      rcases List.mem_cons.1 hrr with rfl | hrr
      · exact ⟨r, List.mem_cons_self _ _, rfl, rfl⟩
      · obtain ⟨r2, hr2, h1, h2⟩ := ih (k + 1) rr hrr
        exact ⟨r2, List.mem_cons_of_mem _ hr2, h1, h2⟩

lemma with_ranks_pairwise (get : Obs → ℚ) : ∀ (l : List Obs) (k : ℕ),
    List.Pairwise (desc_by get) l →
    List.Pairwise (fun a b : RankedRow => b.value ≤ a.value) (with_ranks get k l) := by
  intro l
  induction l with
  | nil => intro k _; exact List.Pairwise.nil
  | cons r t ih =>
      intro k hp
      refine List.Pairwise.cons ?_ (ih (k + 1) hp.of_cons)
      intro rr hrr
      obtain ⟨r2, hr2, _, hval⟩ := with_ranks_mem get (k + 1) t rr hrr
      rw [hval]
      exact List.rel_of_pairwise_cons hp hr2

lemma length_eq_of_nodup_of_mem_iff (a b : List String) (ha : a.Nodup) (hb : b.Nodup)
    (h : ∀ s, s ∈ a ↔ s ∈ b) : a.length = b.length := by
  rw [← List.toFinset_card_of_nodup ha, ← List.toFinset_card_of_nodup hb]
  congr 1
  ext s
  simp only [List.mem_toFinset]
  exact h s

lemma rank_core_properties (get : Obs → ℚ) (rows : List Obs) :
    (rank_core get rows).length = ((rows.map Obs.symbol).dedup).length ∧
    (rank_core get rows).map RankedRow.rank =
      List.range' 1 (rank_core get rows).length ∧
    ((rank_core get rows).map RankedRow.symbol).Nodup ∧
    (∀ s, s ∈ (rank_core get rows).map RankedRow.symbol ↔
      s ∈ rows.map Obs.symbol) ∧
    List.Pairwise (fun a b : RankedRow => b.value ≤ a.value) (rank_core get rows) ∧
    (∀ rr ∈ rank_core get rows, ∃ r ∈ rows, rr.symbol = r.symbol ∧
      rr.value = get r ∧
      ∀ r2 ∈ rows, r2.symbol = r.symbol → r2.timestamp ≤ r.timestamp) := by
  have hpermTs : List.Perm (sort_by_timestamp rows) rows :=
    List.perm_insertionSort ts_le rows
  have hsortedTs : List.Pairwise ts_le (sort_by_timestamp rows) :=
    List.sorted_insertionSort ts_le rows
  have hperm1 : List.Perm
      (List.insertionSort (desc_by get) (tail_one (sort_by_timestamp rows)))
      (tail_one (sort_by_timestamp rows)) :=
    List.perm_insertionSort (desc_by get) _
  have hsorted1 : List.Pairwise (desc_by get)
      (List.insertionSort (desc_by get) (tail_one (sort_by_timestamp rows))) :=
    List.sorted_insertionSort (desc_by get) _
  have hsymmap : (rank_core get rows).map RankedRow.symbol =
      (List.insertionSort (desc_by get) (tail_one (sort_by_timestamp rows))).map
        Obs.symbol := by
    unfold rank_core
    exact with_ranks_map_symbol get 1 _
  have hnodup : ((rank_core get rows).map RankedRow.symbol).Nodup := by
    rw [hsymmap]
    exact (hperm1.map Obs.symbol).nodup_iff.2 (tail_one_symbols_nodup _)
  have hmemiff : ∀ s, s ∈ (rank_core get rows).map RankedRow.symbol ↔
      s ∈ rows.map Obs.symbol := by
    intro s
    rw [hsymmap]
    rw [(hperm1.map Obs.symbol).mem_iff]
    rw [tail_one_symbols_mem]
    exact (hpermTs.map Obs.symbol).mem_iff
  refine ⟨?_, ?_, hnodup, hmemiff, ?_, ?_⟩
  · have hlen : (rank_core get rows).length =
        ((rank_core get rows).map RankedRow.symbol).length := by
      rw [List.length_map]
    rw [hlen]
    refine length_eq_of_nodup_of_mem_iff _ _ hnodup (List.nodup_dedup _) ?_
    intro s
    rw [hmemiff s, List.mem_dedup]
  · unfold rank_core
    rw [with_ranks_map_rank, with_ranks_length]
  · unfold rank_core
    exact with_ranks_pairwise get _ 1 hsorted1
  · intro rr hrr
    unfold rank_core at hrr
    obtain ⟨r, hr, hsy, hv⟩ := with_ranks_mem get 1 _ rr hrr
    have hrtail : r ∈ tail_one (sort_by_timestamp rows) := hperm1.mem_iff.1 hr
    have hrrows : r ∈ rows :=
      hpermTs.mem_iff.1 (tail_one_subset _ r hrtail)
    refine ⟨r, hrrows, hsy, hv, ?_⟩
    intro r2 hr2 hr2s
    exact tail_one_latest _ hsortedTs r hrtail r2 (hpermTs.mem_iff.2 hr2) hr2s

/-- C7: for a valid metric on a dataset with the standard columns, the
ranking succeeds and returns exactly one row per distinct symbol (its
symbols are duplicate-free and coincide with the dataset's symbols, and
the output length is the number K of distinct symbols), the ranks are
exactly `1..K` in order, values are non-increasing as rank increases,
and each row's value is the metric of an observation of that symbol
whose timestamp is maximal among the symbol's observations. -/
theorem c7_ranking_properties (df : PdFrame) (metric : String)
    (hm : metric ∈ valid_metrics) (hcol : metric ∈ df.cols)
    (hts : "timestamp" ∈ df.cols) (hsym : "symbol" ∈ df.cols) :
    ∃ out, calculate_rankings df metric = Except.ok out ∧
      out.length = ((df.rows.map Obs.symbol).dedup).length ∧
      out.map RankedRow.rank = List.range' 1 out.length ∧
      (out.map RankedRow.symbol).Nodup ∧
      (∀ s, s ∈ out.map RankedRow.symbol ↔ s ∈ df.rows.map Obs.symbol) ∧
      List.Pairwise (fun a b : RankedRow => b.value ≤ a.value) out ∧
      (∀ rr ∈ out, ∃ r ∈ df.rows, rr.symbol = r.symbol ∧
        rr.value = metric_get metric r ∧
        ∀ r2 ∈ df.rows, r2.symbol = r.symbol → r2.timestamp ≤ r.timestamp) := by
  have hok : ∀ get : Obs → ℚ,
      (∃ out, (Except.ok (rank_core get df.rows) : Except PyExc (List RankedRow)) =
          Except.ok out ∧
        out.length = ((df.rows.map Obs.symbol).dedup).length ∧
        out.map RankedRow.rank = List.range' 1 out.length ∧
        (out.map RankedRow.symbol).Nodup ∧
        (∀ s, s ∈ out.map RankedRow.symbol ↔ s ∈ df.rows.map Obs.symbol) ∧
        List.Pairwise (fun a b : RankedRow => b.value ≤ a.value) out ∧
        (∀ rr ∈ out, ∃ r ∈ df.rows, rr.symbol = r.symbol ∧
          rr.value = get r ∧
          ∀ r2 ∈ df.rows, r2.symbol = r.symbol → r2.timestamp ≤ r.timestamp)) := by
    intro get
    obtain ⟨h1, h2, h3, h4, h5, h6⟩ := rank_core_properties get df.rows
    exact ⟨rank_core get df.rows, rfl, h1, h2, h3, h4, h5, h6⟩
  rcases (show metric = "period_volume" ∨ metric = "trade_count" ∨ metric = "cvd" by
    simpa [valid_metrics] using hm) with rfl | rfl | rfl
  · unfold calculate_rankings
    rw [if_neg (not_not.2 hcol), if_pos rfl]
    rw [show get_col df "timestamp" = pure () from by rw [get_col, if_pos hts]; rfl]
    rw [pure_bind]
    rw [show get_col df "symbol" = pure () from by rw [get_col, if_pos hsym]; rfl]
    rw [pure_bind]
    exact hok Obs.period_volume
  · unfold calculate_rankings
    rw [if_neg (not_not.2 hcol)]
    rw [if_neg (by decide : ¬ ("trade_count" = "period_volume")), if_pos rfl]
    rw [show get_col df "timestamp" = pure () from by rw [get_col, if_pos hts]; rfl]
    rw [pure_bind]
    rw [show get_col df "symbol" = pure () from by rw [get_col, if_pos hsym]; rfl]
    rw [pure_bind]
    exact hok Obs.trade_count
  · unfold calculate_rankings
    rw [if_neg (not_not.2 hcol)]
    rw [if_neg (by decide : ¬ ("cvd" = "period_volume"))]
    rw [if_neg (by decide : ¬ ("cvd" = "trade_count")), if_pos rfl]
    rw [show get_col df "timestamp" = pure () from by rw [get_col, if_pos hts]; rfl]
    rw [pure_bind]
    rw [show get_col df "symbol" = pure () from by rw [get_col, if_pos hsym]; rfl]
    rw [pure_bind]
    exact hok Obs.cvd

/-- Witness for `c7_ranking_properties` on the four-row two-symbol
frame, metric `period_volume`. -/
theorem c7_ranking_witness :
    ("period_volume" ∈ valid_metrics ∧ "period_volume" ∈ c7frame.cols ∧
     "timestamp" ∈ c7frame.cols ∧ "symbol" ∈ c7frame.cols) ∧
    (∃ out, calculate_rankings c7frame "period_volume" = Except.ok out ∧
      out.length = ((c7frame.rows.map Obs.symbol).dedup).length ∧
      out.map RankedRow.rank = List.range' 1 out.length ∧
      (out.map RankedRow.symbol).Nodup ∧
      (∀ s, s ∈ out.map RankedRow.symbol ↔ s ∈ c7frame.rows.map Obs.symbol) ∧
      List.Pairwise (fun a b : RankedRow => b.value ≤ a.value) out ∧
      (∀ rr ∈ out, ∃ r ∈ c7frame.rows, rr.symbol = r.symbol ∧
        rr.value = metric_get "period_volume" r ∧
        ∀ r2 ∈ c7frame.rows, r2.symbol = r.symbol →
          r2.timestamp ≤ r.timestamp)) :=
  ⟨⟨by decide, by decide, by decide, by decide⟩,
   c7_ranking_properties c7frame "period_volume" (by decide) (by decide)
     (by decide) (by decide)⟩
